import Mathlib

/-!
Shallow embedding of the workshop notebook
`workshops/Summarize_Scientific_Documents/Summarize-Scientific-Documents.ipynb`.

The notebook is a linear script: it downloads 25 PubMed articles, submits an
Amazon Comprehend topic-detection job, polls the job status in a bounded loop,
downloads and merges the tabular results with pandas, selects an article whose
text matches the regex `Background (.{,1000})`, sends the captured text to an
asynchronous HuggingFace endpoint behind a bounded waiter, and finally cleans
up the endpoint and the S3 objects under the `sci-docs` prefix.

Each definition below embeds one of those steps.  External inputs (the status
returned by each `describe_topics_detection_job` call, file contents, the
random sample stream, S3 bucket contents) are passed in as explicit
parameters, so each step becomes a pure function of its inputs.
-/

namespace SciDocs

/-! ## The Comprehend status-polling loop

```
number_of_comprehend_status_checks = 0
maximum_comprehend_status_checks = 20
comprehend_status_check_sleep = 60

while number_of_comprehend_status_checks < maximum_comprehend_status_checks:
    describe_topics_detection_job_result = comprehend.describe_topics_detection_job(...)
    number_of_comprehend_status_checks += 1
    print(...)
    if describe_topics_detection_job_result['JobStatus'] == "COMPLETED":
        break
    sleep(comprehend_status_check_sleep)

if describe_topics_detection_job_result['JobStatus'] != "COMPLETED":
    raise UserWarning(...)
```
-/

/-- Constant `maximum_comprehend_status_checks = 20` in the status-check cell. -/
def maximum_comprehend_status_checks : Nat := 20

/-- Constant `comprehend_status_check_sleep = 60` (seconds) in the status-check cell. -/
def comprehend_status_check_sleep : Nat := 60

/-- One observable action of the polling loop: a call to
`describe_topics_detection_job` (recording the value of
`number_of_comprehend_status_checks` right after the `+= 1` and the observed
`JobStatus`), or a call to `sleep` with its duration in seconds. -/
inductive Event where
  | check (idx : Nat) (status : String)
  | sleepFor (secs : Nat)
deriving DecidableEq

/-- Whether an event is a `describe_topics_detection_job` call. -/
def Event.isCheck : Event → Bool
  | .check _ _ => true
  | .sleepFor _ => false

/-- The check counter printed by a `check` event, if any. -/
def Event.checkIdx : Event → Option Nat
  | .check i _ => some i
  | .sleepFor _ => none

/-- Result of running the polling loop: the final value of
`number_of_comprehend_status_checks`, the final
`describe_topics_detection_job_result` status, and the trace of actions the
loop performed, in order. -/
structure LoopOut where
  checks : Nat
  lastStatus : String
  trace : List Event
deriving DecidableEq

/-- The `while number_of_comprehend_status_checks < maximum_comprehend_status_checks`
loop.  `statuses k` is the `JobStatus` returned by the `(k+1)`-st
`describe_topics_detection_job` call; `remaining` is
`maximum_comprehend_status_checks - number_of_comprehend_status_checks`;
`n` is the current counter value; `last` is the status currently held in
`describe_topics_detection_job_result`. -/
def pollLoopAux (statuses : Nat → String) : Nat → Nat → String → LoopOut
  | 0, n, last => ⟨n, last, []⟩
  | remaining + 1, n, _ =>
      let st := statuses n
      if st = "COMPLETED" then
        ⟨n + 1, st, [Event.check (n + 1) st]⟩
      else
        let rest := pollLoopAux statuses remaining (n + 1) st
        ⟨rest.checks, rest.lastStatus,
          Event.check (n + 1) st ::
            Event.sleepFor comprehend_status_check_sleep :: rest.trace⟩

/-- The whole polling cell: counter starts at `0`; before the first iteration
`describe_topics_detection_job_result` is unset (modelled as `""`, and the loop
always runs at least one iteration since `maximum_comprehend_status_checks > 0`). -/
def pollLoop (statuses : Nat → String) : LoopOut :=
  pollLoopAux statuses maximum_comprehend_status_checks 0 ""

/-- Final value of `number_of_comprehend_status_checks`, i.e. the number of
`describe_topics_detection_job` calls made. -/
def pollChecks (statuses : Nat → String) : Nat := (pollLoop statuses).checks

/-- The `JobStatus` held in `describe_topics_detection_job_result` after the loop. -/
def pollLastStatus (statuses : Nat → String) : String := (pollLoop statuses).lastStatus

/-- The guard after the loop:
`if describe_topics_detection_job_result['JobStatus'] != "COMPLETED": raise UserWarning(...)`. -/
def pollRaisesUserWarning (statuses : Nat → String) : Bool :=
  decide (pollLastStatus statuses ≠ "COMPLETED")

/-! ## The topic-modelling result tables

```
topics = (
    pd.read_csv("data/topic-terms.csv")
    .sort_values(["topic", "weight"], ascending=[True, False])
    .groupby(["topic"])["term"]
    .agg(lambda x: ", ".join(x))
)
docs = pd.read_csv("data/doc-topics.csv").sort_values(
    ["docname", "proportion"], ascending=[True, False]
)
results = pd.merge(docs, topics, how="left", on="topic")
```

Rows of `topic-terms.csv` have columns `topic, term, weight`; rows of
`doc-topics.csv` have columns `docname, topic, proportion`.  The fractional
columns are modelled as rationals, string comparison as code-point
lexicographic order (Python string `<`).
-/

/-- A row of `topic-terms.csv`. -/
structure TopicTermRow where
  topic : Nat
  term : String
  weight : ℚ
deriving DecidableEq

/-- A row of `doc-topics.csv`. -/
structure DocTopicRow where
  docname : String
  topic : Nat
  proportion : ℚ
deriving DecidableEq

/-- A row of `results = pd.merge(docs, topics, how="left", on="topic")`.
`term` is `none` when the left join found no matching topic (pandas `NaN`). -/
structure ResultRow where
  docname : String
  topic : Nat
  proportion : ℚ
  term : Option String
deriving DecidableEq

/-- The doc-topics columns of a merged row. -/
def ResultRow.proj (r : ResultRow) : DocTopicRow :=
  ⟨r.docname, r.topic, r.proportion⟩

/-- Strict code-point lexicographic order on character lists (Python string `<`). -/
def charListLt : List Char → List Char → Bool
  | [], [] => false
  | [], _ :: _ => true
  | _ :: _, [] => false
  | a :: as, b :: bs =>
      if a.val.toNat < b.val.toNat then true
      else if b.val.toNat < a.val.toNat then false
      else charListLt as bs

/-- Python string `<` on the two `docname` strings. -/
def strLt (a b : String) : Bool := charListLt a.data b.data

/-- The `sort_values(["topic", "weight"], ascending=[True, False])` order on
topic-terms rows: topic ascending, then weight descending. -/
def ttLe (a b : TopicTermRow) : Prop :=
  a.topic < b.topic ∨ (a.topic = b.topic ∧ b.weight ≤ a.weight)

instance : DecidableRel ttLe := fun a b => by
  unfold ttLe; infer_instance

instance : IsTotal TopicTermRow ttLe :=
  ⟨fun a b => by
    unfold ttLe
    rcases Nat.lt_trichotomy a.topic b.topic with h | h | h
    · exact Or.inl (Or.inl h)
    · rcases le_total a.weight b.weight with hw | hw
      · exact Or.inr (Or.inr ⟨h.symm, hw⟩)
      · exact Or.inl (Or.inr ⟨h, hw⟩)
    · exact Or.inr (Or.inl h)⟩

instance : IsTrans TopicTermRow ttLe :=
  ⟨fun a b c hab hbc => by
    unfold ttLe at *
    rcases hab with h1 | ⟨h1, w1⟩ <;> rcases hbc with h2 | ⟨h2, w2⟩
    · exact Or.inl (h1.trans h2)
    · exact Or.inl (h2 ▸ h1)
    · exact Or.inl (h1 ▸ h2)
    · exact Or.inr ⟨h1.trans h2, w2.trans w1⟩⟩

/-- The `sort_values(["docname", "proportion"], ascending=[True, False])` order
on doc-topics rows: docname ascending, then proportion descending. -/
def dtLe (a b : DocTopicRow) : Prop :=
  strLt a.docname b.docname = true ∨
    (a.docname = b.docname ∧ b.proportion ≤ a.proportion)

instance : DecidableRel dtLe := fun a b => by
  unfold dtLe; infer_instance

/-- Embeds `pd.read_csv("data/topic-terms.csv").sort_values(["topic", "weight"],
ascending=[True, False])`. -/
def sortTopicTerms (rows : List TopicTermRow) : List TopicTermRow :=
  List.insertionSort ttLe rows

/-- Embeds `docs = pd.read_csv("data/doc-topics.csv").sort_values(["docname",
"proportion"], ascending=[True, False])`. -/
def sortDocTopics (rows : List DocTopicRow) : List DocTopicRow :=
  List.insertionSort dtLe rows

/-- Embeds `.groupby(["topic"])["term"].agg(lambda x: ", ".join(x))` applied to the
sorted topic-terms table: one output row per distinct topic value (keys
ascending, since the table was just sorted by topic ascending), whose term
column is the comma-join of the group's terms in their sorted order. -/
def topicsAgg (rows : List TopicTermRow) : List (Nat × String) :=
  let sorted := sortTopicTerms rows
  (sorted.map (fun r => r.topic)).dedup.map (fun t =>
    (t, String.intercalate ", "
      ((sorted.filter (fun r => r.topic == t)).map (fun r => r.term))))

/-- Embeds `pd.merge(docs, topics, how="left", on="topic")`: every left row is joined
with every matching right row (in right-table order), and a left row with no
match is kept once with a missing `term`.  Left-table order is preserved. -/
def leftMergeOnTopic (docs : List DocTopicRow) (topics : List (Nat × String)) :
    List ResultRow :=
  docs.flatMap (fun d =>
    match topics.filter (fun p => p.1 == d.topic) with
    | [] => [⟨d.docname, d.topic, d.proportion, none⟩]
    | ms => ms.map (fun m => ⟨d.docname, d.topic, d.proportion, some m.2⟩))

/-- The whole `results` computation of the result cell. -/
def mergeResults (docRows : List DocTopicRow) (ttRows : List TopicTermRow) :
    List ResultRow :=
  leftMergeOnTopic (sortDocTopics docRows) (topicsAgg ttRows)

/-- The result cell
`if describe_topics_detection_job_result["JobStatus"] == "COMPLETED": ...`:
download, unpack, parse and merge run only under the guard; otherwise the cell
produces nothing. -/
def downloadAndParseResults (lastStatus : String) (docRows : List DocTopicRow)
    (ttRows : List TopicTermRow) : Option (List ResultRow) :=
  if lastStatus = "COMPLETED" then some (mergeResults docRows ttRows) else none

/-! ## Article selection and the `Background` regex

```
result = None
while result is None:
    art = sample(article_names, 1)[0]
    with open(f"data/raw/{art}", ...) as f:
        text = f.read().replace("\n", " ").replace("\t", " ")
        result = re.search("Background (.{,1000})", text)
dict = {"inputs": result.group(1)}
```
-/

/-- The 25 article file names hard-coded in the download cell. -/
def article_names : List String :=
  ["PMC1043862.txt", "PMC1054881.txt", "PMC1054888.txt", "PMC1064076.txt",
   "PMC1064081.txt", "PMC1064104.txt", "PMC1064852.txt", "PMC1064855.txt",
   "PMC1064860.txt", "PMC1064883.txt", "PMC1064892.txt", "PMC1064893.txt",
   "PMC1065049.txt", "PMC1065056.txt", "PMC1065057.txt", "PMC1065073.txt",
   "PMC1065100.txt", "PMC1065320.txt", "PMC1065326.txt", "PMC1069647.txt",
   "PMC1069665.txt", "PMC1073698.txt", "PMC1074343.txt", "PMC1074358.txt",
   "PMC1074751.txt"]

/-- Embeds `f.read().replace` of newline and tab: every newline and tab
character becomes a space. -/
def flattenText (s : String) : String :=
  String.mk (s.data.map (fun c =>
    if c = '\n' then ' ' else if c = '\t' then ' ' else c))

/-- The literal part `Background ` of the regex pattern. -/
def bgPattern : List Char := "Background ".data

/-- Index of the first occurrence of `pat` in a character list, if any
(`re.search` scans left to right for the first position where the pattern
matches). -/
def findFirstMatch (pat : List Char) : List Char → Option Nat
  | [] => if pat.isPrefixOf ([] : List Char) then some 0 else none
  | c :: rest =>
      if pat.isPrefixOf (c :: rest) then some 0
      else (findFirstMatch pat rest).map (fun i => i + 1)

/-- Embeds the search `re.search("Background (.{,1000})", text)`, returning `result.group(1)`:
at the first occurrence of `Background `, the greedy group `.{,1000}` matches
up to 1000 following characters, where `.` does not match a newline. -/
def searchBackground (text : String) : Option String :=
  (findFirstMatch bgPattern text.data).map (fun i =>
    String.mk
      (((text.data.drop (i + bgPattern.length)).takeWhile
          (fun c => c != '\n')).take 1000))

/-- The `while result is None` article-selection loop.  `samples j` is the
`j`-th value drawn by `sample(article_names, 1)[0]`; `contents a` is the text
of file `data/raw/{a}`.  `fuel` bounds the number of iterations that are
modelled: `none` means the loop is still running after `fuel` iterations.
On success, returns the number of sampling attempts made so far, the selected
article, and the captured group. -/
def selectArticle (samples : Nat → String) (contents : String → String) :
    Nat → Nat → Option (Nat × String × String)
  | 0, _ => none
  | fuel + 1, i =>
      let art := samples i
      let text := flattenText (contents art)
      match searchBackground text with
      | some cap => some (i + 1, art, cap)
      | none => selectArticle samples contents fuel (i + 1)

/-! ## The asynchronous inference waiter

```
async_response = predictor.predict_async(data=dict)
waiter = WaiterConfig(max_attempts=24, delay=15)
result = async_response.get_result(waiter)
```
-/

/-- The `sagemaker.async_inference.waiter_config.WaiterConfig` arguments. -/
structure WaiterConfig where
  max_attempts : Nat
  delay : Nat
deriving DecidableEq

/-- Embeds `waiter = WaiterConfig(max_attempts=24, delay=15)`. -/
def waiter : WaiterConfig := ⟨24, 15⟩

/-- Modelled from the spec: the SDK's `get_result` waiter is not part of this
repository; per the spec the async prediction is "waited on via a blocking
poll".  `available j` is the output-object state seen by the `j`-th poll; the
waiter polls until the result exists or `max_attempts` polls have been made,
sleeping `delay` seconds between polls.  Returns the result (if observed) and
the number of polls made. -/
def waiterPollAux (available : Nat → Option String) :
    Nat → Nat → Option String × Nat
  | 0, attempts => (none, attempts)
  | r + 1, attempts =>
      match available attempts with
      | some v => (some v, attempts + 1)
      | none => waiterPollAux available r (attempts + 1)

/-- Modelled from the spec: `async_response.get_result(waiter)` as a blocking
bounded poll governed by the `WaiterConfig`. -/
def get_result (cfg : WaiterConfig) (available : Nat → Option String) :
    Option String × Nat :=
  waiterPollAux available cfg.max_attempts 0

/-! ## Clean up

```
predictor.delete_endpoint()
bucket = boto_session.resource("s3").Bucket(s3_bucket)
bucket.objects.filter(Prefix="sci-docs").delete()
```
-/

/-- Whether the S3 key `k` starts with prefix `pre` (the `Prefix=` filter of
`bucket.objects.filter`). -/
def keyHasPrefix (pre k : String) : Bool := pre.data.isPrefixOf k.data

/-- State touched by the clean-up cell: whether the inference endpoint is
deployed, and the keys of the objects in the session bucket. -/
structure CleanupState where
  endpointDeployed : Bool
  bucketKeys : List String

/-- The clean-up cell: `predictor.delete_endpoint()` and
`bucket.objects.filter(Prefix="sci-docs").delete()`. -/
def cleanUp (st : CleanupState) : CleanupState :=
  { endpointDeployed := false
    bucketKeys := st.bucketKeys.filter (fun k => !(keyHasPrefix "sci-docs" k)) }

/-! ## Lemmas about the polling loop -/

theorem pollLoopAux_checks_bounds (statuses : Nat → String) :
    ∀ r n last, n ≤ (pollLoopAux statuses r n last).checks ∧
      (pollLoopAux statuses r n last).checks ≤ n + r := by
  intro r
  induction r with
  | zero => intro n last; simp [pollLoopAux]
  | succ r ih =>
      intro n last
      simp only [pollLoopAux]
      split
      · simp
      · have := ih (n + 1) (statuses n)
        dsimp only
        omega

theorem pollLoopAux_last (statuses : Nat → String) :
    ∀ r n last, r ≠ 0 →
      (pollLoopAux statuses r n last).lastStatus =
          statuses ((pollLoopAux statuses r n last).checks - 1) ∧
        n < (pollLoopAux statuses r n last).checks := by
  intro r
  induction r with
  | zero => intro n last h; exact absurd rfl h
  | succ r ih =>
      intro n last _
      simp only [pollLoopAux]
      split
      · next h => simp [h]
      · match r, ih with
        | 0, _ => simp [pollLoopAux]
        | r + 1, ih =>
            have := ih (n + 1) (statuses n) (Nat.succ_ne_zero r)
            dsimp only
            exact ⟨this.1, Nat.lt_of_succ_le (Nat.le_of_lt this.2)⟩

theorem pollLoopAux_completed (statuses : Nat → String) :
    ∀ r k n last, k < r → statuses (n + k) = "COMPLETED" →
      (pollLoopAux statuses r n last).lastStatus = "COMPLETED" := by
  intro r
  induction r with
  | zero => intro k n last hk; omega
  | succ r ih =>
      intro k n last hk hc
      simp only [pollLoopAux]
      split
      · next h => exact h
      · next h =>
          have hk0 : k ≠ 0 := by
            intro h0; rw [h0, Nat.add_zero] at hc; exact h hc
          have : statuses (n + 1 + (k - 1)) = "COMPLETED" := by
            have : n + 1 + (k - 1) = n + k := by omega
            rw [this]; exact hc
          exact ih (k - 1) (n + 1) (statuses n) (by omega) this

theorem pollLoopAux_stop (statuses : Nat → String) :
    ∀ r k n last, k < r → statuses (n + k) = "COMPLETED" →
      (∀ j, j < k → statuses (n + j) ≠ "COMPLETED") →
      (pollLoopAux statuses r n last).checks = n + k + 1 := by
  intro r
  induction r with
  | zero => intro k n last hk; omega
  | succ r ih =>
      intro k n last hk hc hfirst
      simp only [pollLoopAux]
      split
      · next h =>
          have hk0 : k = 0 := by
            by_contra h0
            exact hfirst 0 (by omega) (by rw [Nat.add_zero]; exact h)
          simp [hk0]
      · next h =>
          have hk0 : k ≠ 0 := by
            intro h0; rw [h0, Nat.add_zero] at hc; exact h hc
          have hc' : statuses (n + 1 + (k - 1)) = "COMPLETED" := by
            have : n + 1 + (k - 1) = n + k := by omega
            rw [this]; exact hc
          have hfirst' : ∀ j, j < k - 1 → statuses (n + 1 + j) ≠ "COMPLETED" := by
            intro j hj
            have : n + 1 + j = n + (j + 1) := by omega
            rw [this]; exact hfirst (j + 1) (by omega)
          have := ih (k - 1) (n + 1) (statuses n) (by omega) hc' hfirst'
          dsimp only
          omega

theorem pollLoopAux_none (statuses : Nat → String) :
    ∀ r n last, (∀ j, j < r → statuses (n + j) ≠ "COMPLETED") →
      (pollLoopAux statuses r n last).checks = n + r := by
  intro r
  induction r with
  | zero => intro n last _; simp [pollLoopAux]
  | succ r ih =>
      intro n last hnone
      simp only [pollLoopAux]
      split
      · next h => exact absurd h (by simpa using hnone 0 (by omega))
      · have : ∀ j, j < r → statuses (n + 1 + j) ≠ "COMPLETED" := by
          intro j hj
          have : n + 1 + j = n + (j + 1) := by omega
          rw [this]; exact hnone (j + 1) (by omega)
        have := ih (n + 1) (statuses n) this
        dsimp only
        omega

theorem pollLoopAux_trace_checkIdx (statuses : Nat → String) :
    ∀ r n last, (pollLoopAux statuses r n last).trace.filterMap Event.checkIdx =
      List.range' (n + 1) ((pollLoopAux statuses r n last).checks - n) := by
  intro r
  induction r with
  | zero => intro n last; simp [pollLoopAux]
  | succ r ih =>
      intro n last
      simp only [pollLoopAux]
      split
      · simp [Event.checkIdx, List.range']
      · have hb := pollLoopAux_checks_bounds statuses r (n + 1) (statuses n)
        have hk : (pollLoopAux statuses r (n + 1) (statuses n)).checks - n =
            ((pollLoopAux statuses r (n + 1) (statuses n)).checks - (n + 1)) + 1 := by
          omega
        dsimp only
        simp only [List.filterMap_cons, Event.checkIdx, ih (n + 1) (statuses n), hk,
          List.range'_succ]

theorem pollLoopAux_trace_sleeps (statuses : Nat → String) :
    ∀ r n last, ∀ e ∈ (pollLoopAux statuses r n last).trace,
      e.isCheck = false → e = Event.sleepFor comprehend_status_check_sleep := by
  intro r
  induction r with
  | zero => intro n last e he; simp [pollLoopAux] at he
  | succ r ih =>
      intro n last e he hnc
      simp only [pollLoopAux] at he
      split at he
      · simp at he; rw [he] at hnc; simp [Event.isCheck] at hnc
      · dsimp only at he
        simp only [List.mem_cons] at he
        rcases he with he | he | he
        · rw [he] at hnc; simp [Event.isCheck] at hnc
        · exact he
        · exact ih (n + 1) (statuses n) e he hnc

theorem pollLoopAux_trace_head (statuses : Nat → String) :
    ∀ r n last, r ≠ 0 → (pollLoopAux statuses r n last).trace.head? =
      some (Event.check (n + 1) (statuses n)) := by
  intro r
  match r with
  | 0 => intro n last h; exact absurd rfl h
  | r + 1 =>
      intro n last _
      simp only [pollLoopAux]
      split
      · next h => simp [h]
      · simp

theorem pollLoopAux_trace_alt (statuses : Nat → String) :
    ∀ r n last, List.Chain' (fun a b => a.isCheck ≠ b.isCheck)
      (pollLoopAux statuses r n last).trace := by
  intro r
  induction r with
  | zero => intro n last; simp [pollLoopAux]
  | succ r ih =>
      intro n last
      simp only [pollLoopAux]
      split
      · simp
      · dsimp only
        have htail := ih (n + 1) (statuses n)
        rw [List.chain'_cons]
        refine ⟨by simp [Event.isCheck], ?_⟩
        match r, htail with
        | 0, _ => simp [pollLoopAux, Event.isCheck]
        | r + 1, htail =>
            have hhead := pollLoopAux_trace_head statuses (r + 1) (n + 1)
              (statuses n) (Nat.succ_ne_zero r)
            rcases hh : (pollLoopAux statuses (r + 1) (n + 1) (statuses n)).trace with
              _ | ⟨e, tl⟩
            · simp
            · rw [hh] at hhead htail
              simp only [List.head?_cons, Option.some_inj] at hhead
              rw [List.chain'_cons]
              refine ⟨?_, htail⟩
              subst hhead
              simp [Event.isCheck]

/-! ## Claims about the polling loop -/

/-- Claim C1: the polling step raises its `UserWarning` iff none of the status
checks it performed observed `"COMPLETED"`; whenever a check within the budget
is the first to observe `"COMPLETED"`, the loop stops at exactly that check
and no error is raised. -/
theorem comprehend_poll_raises_iff_never_completed (statuses : Nat → String) :
    (pollRaisesUserWarning statuses = true ↔
      ∀ k, k < pollChecks statuses → statuses k ≠ "COMPLETED") ∧
    (∀ k, k < maximum_comprehend_status_checks → statuses k = "COMPLETED" →
      (∀ j, j < k → statuses j ≠ "COMPLETED") →
      pollChecks statuses = k + 1 ∧ pollRaisesUserWarning statuses = false) := by
  constructor
  · constructor
    · intro hraise k hk hcomp
      have hb := pollLoopAux_checks_bounds statuses
        maximum_comprehend_status_checks 0 ""
      have hklt : k < maximum_comprehend_status_checks := by
        unfold pollChecks pollLoop at hk
        omega
      have hlast := pollLoopAux_completed statuses
        maximum_comprehend_status_checks k 0 "" hklt (by simpa using hcomp)
      unfold pollRaisesUserWarning pollLastStatus pollLoop at hraise
      rw [hlast] at hraise
      simp at hraise
    · intro hnone
      have hlast := pollLoopAux_last statuses
        maximum_comprehend_status_checks 0 "" (by decide)
      unfold pollRaisesUserWarning pollLastStatus pollLoop
      rw [hlast.1]
      have := hnone ((pollLoopAux statuses maximum_comprehend_status_checks 0 "").checks - 1)
        (by unfold pollChecks pollLoop; omega)
      simpa using this
  · intro k hk hcomp hfirst
    constructor
    · unfold pollChecks pollLoop
      have := pollLoopAux_stop statuses maximum_comprehend_status_checks k 0 ""
        hk (by simpa using hcomp) (by simpa using hfirst)
      omega
    · have hlast := pollLoopAux_completed statuses
        maximum_comprehend_status_checks k 0 "" hk (by simpa using hcomp)
      unfold pollRaisesUserWarning pollLastStatus pollLoop
      rw [hlast]
      simp

/-- Closed instance of C1: with a status stream that never reports
`"COMPLETED"` the warning is raised, and with one that reports `"COMPLETED"`
immediately the loop stops after one check and raises nothing. -/
theorem comprehend_poll_raises_iff_never_completed_witness :
    pollRaisesUserWarning (fun _ => "FAILED") = true ∧
      pollChecks (fun _ => "COMPLETED") = 1 ∧
      pollRaisesUserWarning (fun _ => "COMPLETED") = false := by
  refine ⟨?_, ?_, ?_⟩
  · exact (comprehend_poll_raises_iff_never_completed (fun _ => "FAILED")).1.mpr
      (fun k _ => by decide)
  · exact ((comprehend_poll_raises_iff_never_completed (fun _ => "COMPLETED")).2 0
      (by decide) (by decide) (fun j hj => absurd hj (Nat.not_lt_zero j))).1
  · exact ((comprehend_poll_raises_iff_never_completed (fun _ => "COMPLETED")).2 0
      (by decide) (by decide) (fun j hj => absurd hj (Nat.not_lt_zero j))).2

/-- Claim C2: the polling loop always terminates after at least one and at
most `maximum_comprehend_status_checks = 20` calls to
`describe_topics_detection_job`; the counter values printed by the successive
checks are exactly `1, 2, ...` (one increment per iteration); every sleep in
the trace lasts exactly `comprehend_status_check_sleep = 60` seconds; and the
trace strictly alternates between checks and sleeps, so one such sleep
separates any two consecutive status checks. -/
theorem comprehend_poll_resource_bounds (statuses : Nat → String) :
    1 ≤ pollChecks statuses ∧
    pollChecks statuses ≤ maximum_comprehend_status_checks ∧
    (pollLoop statuses).trace.filterMap Event.checkIdx =
      List.range' 1 (pollChecks statuses) ∧
    (∀ e ∈ (pollLoop statuses).trace, e.isCheck = false →
      e = Event.sleepFor comprehend_status_check_sleep) ∧
    List.Chain' (fun a b => a.isCheck ≠ b.isCheck) (pollLoop statuses).trace := by
  have hb := pollLoopAux_checks_bounds statuses maximum_comprehend_status_checks 0 ""
  have hlast := pollLoopAux_last statuses maximum_comprehend_status_checks 0 "" (by decide)
  refine ⟨?_, ?_, ?_, ?_, ?_⟩
  · unfold pollChecks pollLoop; omega
  · unfold pollChecks pollLoop; omega
  · have := pollLoopAux_trace_checkIdx statuses maximum_comprehend_status_checks 0 ""
    unfold pollChecks pollLoop
    simpa using this
  · exact pollLoopAux_trace_sleeps statuses maximum_comprehend_status_checks 0 ""
  · exact pollLoopAux_trace_alt statuses maximum_comprehend_status_checks 0 ""

/-- Closed instance of C2: concrete resource-bound facts obtained from the
theorem at two concrete status streams. -/
theorem comprehend_poll_resource_bounds_witness :
    pollChecks (fun _ => "IN_PROGRESS") ≤ maximum_comprehend_status_checks ∧
      (pollLoop (fun n => if n = 2 then "COMPLETED" else "IN_PROGRESS")).trace.filterMap
        Event.checkIdx =
        List.range' 1 (pollChecks (fun n => if n = 2 then "COMPLETED" else "IN_PROGRESS")) :=
  ⟨(comprehend_poll_resource_bounds (fun _ => "IN_PROGRESS")).2.1,
   (comprehend_poll_resource_bounds (fun n => if n = 2 then "COMPLETED" else "IN_PROGRESS")).2.2.1⟩

/-- Claim C3: the result-download/parse/merge cell runs only under the
`JobStatus == "COMPLETED"` guard: whenever the last observed status of the
polling step is not `"COMPLETED"` (in particular whenever the warning is
raised), the cell produces no results table. -/
theorem results_only_after_completed (statuses : Nat → String)
    (docRows : List DocTopicRow) (ttRows : List TopicTermRow) :
    (downloadAndParseResults (pollLastStatus statuses) docRows ttRows = none ↔
      pollLastStatus statuses ≠ "COMPLETED") ∧
    (pollRaisesUserWarning statuses = true →
      downloadAndParseResults (pollLastStatus statuses) docRows ttRows = none) := by
  constructor
  · unfold downloadAndParseResults
    split
    · next h => simp [h]
    · next h => simp [h]
  · intro hraise
    unfold pollRaisesUserWarning at hraise
    unfold downloadAndParseResults
    simp only [decide_eq_true_eq] at hraise
    simp [hraise]

/-- Closed instance of C3: a run whose polling never sees `"COMPLETED"`
produces no results table. -/
theorem results_only_after_completed_witness :
    downloadAndParseResults (pollLastStatus (fun _ => "IN_PROGRESS")) [] [] = none :=
  (results_only_after_completed (fun _ => "IN_PROGRESS") [] []).2 (by decide)

/-! ## Lemmas about the result tables -/

theorem topicsAgg_keys (ttRows : List TopicTermRow) :
    (topicsAgg ttRows).map Prod.fst =
      ((sortTopicTerms ttRows).map (fun r => r.topic)).dedup := by
  unfold topicsAgg
  rw [List.map_map]
  exact List.map_id _

theorem topicsAgg_keys_nodup (ttRows : List TopicTermRow) :
    ((topicsAgg ttRows).map Prod.fst).Nodup := by
  rw [topicsAgg_keys]
  exact List.nodup_dedup _

theorem filter_key_length_le_one {l : List (Nat × String)}
    (h : (l.map Prod.fst).Nodup) (t : Nat) :
    (l.filter (fun p => p.1 == t)).length ≤ 1 := by
  induction l with
  | nil => simp
  | cons p l ih =>
      simp only [List.map_cons, List.nodup_cons] at h
      by_cases hp : p.1 = t
      · have hnil : l.filter (fun q => q.1 == t) = [] := by
          rw [List.filter_eq_nil_iff]
          intro q hq
          simp only [beq_iff_eq]
          intro hqt
          exact h.1 (by rw [hp, ← hqt] at *; exact List.mem_map_of_mem Prod.fst hq)
        simp [List.filter_cons, hp, hnil]
      · simpa [List.filter_cons, hp] using ih h.2

theorem leftMerge_eq_map {topics : List (Nat × String)}
    (h : ∀ t, (topics.filter (fun p => p.1 == t)).length ≤ 1)
    (docs : List DocTopicRow) :
    leftMergeOnTopic docs topics = docs.map (fun d =>
      ⟨d.docname, d.topic, d.proportion,
        ((topics.filter (fun p => p.1 == d.topic)).head?).map Prod.snd⟩) := by
  induction docs with
  | nil => rfl
  | cons d ds ih =>
      unfold leftMergeOnTopic at ih ⊢
      simp only [List.flatMap_cons, List.map_cons]
      rcases hf : topics.filter (fun p => p.1 == d.topic) with _ | ⟨m, ms⟩
      · rw [ih, hf]; rfl
      · have hlen := h d.topic
        rw [hf] at hlen
        have hms : ms = [] := by
          simp only [List.length_cons] at hlen
          exact List.eq_nil_of_length_eq_zero (by omega)
        subst hms
        rw [ih, hf]
        rfl

/-! ## Claims about the result tables -/

/-- Claim C4: `results` is the left join of the sorted doc-topics table with
the aggregated topics table on `topic`: the aggregated table has pairwise
distinct topic keys, the doc-topics columns of the merged rows are exactly the
sorted doc-topics table (so every doc-topics row appears exactly once,
unchanged, and the merged table is a permutation of the raw doc-topics rows),
and a merged row has a missing `term` exactly when its topic has no row in the
aggregated topics table. -/
theorem results_left_join (docRows : List DocTopicRow) (ttRows : List TopicTermRow) :
    ((topicsAgg ttRows).map Prod.fst).Nodup ∧
    (mergeResults docRows ttRows).map ResultRow.proj = sortDocTopics docRows ∧
    ((mergeResults docRows ttRows).map ResultRow.proj).Perm docRows ∧
    (∀ r ∈ mergeResults docRows ttRows,
      (r.term = none ↔ ∀ p ∈ topicsAgg ttRows, p.1 ≠ r.topic)) := by
  have hlen := filter_key_length_le_one (topicsAgg_keys_nodup ttRows)
  have hmap : mergeResults docRows ttRows =
      (sortDocTopics docRows).map (fun d =>
        ⟨d.docname, d.topic, d.proportion,
          (((topicsAgg ttRows).filter (fun p => p.1 == d.topic)).head?).map Prod.snd⟩) := by
    unfold mergeResults
    exact leftMerge_eq_map hlen (sortDocTopics docRows)
  have hproj : (mergeResults docRows ttRows).map ResultRow.proj = sortDocTopics docRows := by
    rw [hmap, List.map_map]
    have : (ResultRow.proj ∘ fun d : DocTopicRow =>
        (⟨d.docname, d.topic, d.proportion,
          (((topicsAgg ttRows).filter (fun p => p.1 == d.topic)).head?).map Prod.snd⟩ :
            ResultRow)) = fun d => d := by
      funext d
      rfl
    rw [this]
    exact List.map_id _
  refine ⟨topicsAgg_keys_nodup ttRows, hproj, ?_, ?_⟩
  · rw [hproj]
    exact List.perm_insertionSort dtLe docRows
  · intro r hr
    rw [hmap] at hr
    obtain ⟨d, _, rfl⟩ := List.mem_map.mp hr
    simp only [Option.map_eq_none', List.head?_eq_none_iff, List.filter_eq_nil_iff,
      beq_iff_eq]

/-- Closed instance of C4: the left-join characterisation evaluated on a
concrete pair of tables (one doc-topics row refers to topic `7`, which is
absent from the topics table). -/
theorem results_left_join_witness :
    (mergeResults
        [⟨"d2.txt", 1, (1 : ℚ)⟩, ⟨"d1.txt", 7, (1 : ℚ)⟩]
        [⟨1, "b", (2 : ℚ)⟩, ⟨0, "z", (5 : ℚ)⟩, ⟨1, "a", (3 : ℚ)⟩]).map ResultRow.proj =
      sortDocTopics [⟨"d2.txt", 1, (1 : ℚ)⟩, ⟨"d1.txt", 7, (1 : ℚ)⟩] ∧
    ((⟨"d1.txt", 7, (1 : ℚ), none⟩ : ResultRow).term = none ↔
      ∀ p ∈ topicsAgg [⟨1, "b", (2 : ℚ)⟩, ⟨0, "z", (5 : ℚ)⟩, ⟨1, "a", (3 : ℚ)⟩],
        p.1 ≠ (⟨"d1.txt", 7, (1 : ℚ), none⟩ : ResultRow).topic) :=
  ⟨(results_left_join [⟨"d2.txt", 1, (1 : ℚ)⟩, ⟨"d1.txt", 7, (1 : ℚ)⟩]
      [⟨1, "b", (2 : ℚ)⟩, ⟨0, "z", (5 : ℚ)⟩, ⟨1, "a", (3 : ℚ)⟩]).2.1,
   (results_left_join [⟨"d2.txt", 1, (1 : ℚ)⟩, ⟨"d1.txt", 7, (1 : ℚ)⟩]
      [⟨1, "b", (2 : ℚ)⟩, ⟨0, "z", (5 : ℚ)⟩, ⟨1, "a", (3 : ℚ)⟩]).2.2.2
     ⟨"d1.txt", 7, (1 : ℚ), none⟩ (by decide)⟩

/-- Claim C10: every row of the aggregated topics table joins, with `", "`,
the terms of its topic group as they stand in the sorted topic-terms table,
and the weights of that group are non-increasing (the table was sorted by
topic ascending, weight descending before grouping). -/
theorem topic_terms_descending (ttRows : List TopicTermRow) :
    ∀ p ∈ topicsAgg ttRows,
      p.2 = String.intercalate ", "
          (((sortTopicTerms ttRows).filter (fun r => r.topic == p.1)).map
            (fun r => r.term)) ∧
      (((sortTopicTerms ttRows).filter (fun r => r.topic == p.1)).map
          (fun r => r.weight)).Pairwise (fun a b => b ≤ a) := by
  intro p hp
  unfold topicsAgg at hp
  obtain ⟨t, _, rfl⟩ := List.mem_map.mp hp
  refine ⟨rfl, ?_⟩
  have hsorted : List.Sorted ttLe (sortTopicTerms ttRows) :=
    List.sorted_insertionSort ttLe ttRows
  have hfil : List.Sorted ttLe
      ((sortTopicTerms ttRows).filter (fun r => r.topic == t)) :=
    hsorted.filter _
  rw [List.pairwise_map]
  refine List.Pairwise.imp_of_mem ?_ hfil
  intro a b ha hb hab
  have hat : a.topic = t := by simpa using (List.mem_filter.mp ha).2
  have hbt : b.topic = t := by simpa using (List.mem_filter.mp hb).2
  rcases hab with h | ⟨_, h⟩
  · rw [hat, hbt] at h
    exact absurd h (lt_irrefl t)
  · exact h

/-- Closed instance of C10: on a concrete topic-terms table, the group of
topic `1` joins to `"a, b"` and its weights `[3, 2]` are non-increasing. -/
theorem topic_terms_descending_witness :
    ((1 : Nat), "a, b").2 = String.intercalate ", "
        (((sortTopicTerms [⟨1, "b", (2 : ℚ)⟩, ⟨1, "a", (3 : ℚ)⟩]).filter
            (fun r => r.topic == ((1 : Nat), "a, b").1)).map (fun r => r.term)) ∧
    (((sortTopicTerms [⟨1, "b", (2 : ℚ)⟩, ⟨1, "a", (3 : ℚ)⟩]).filter
        (fun r => r.topic == ((1 : Nat), "a, b").1)).map
        (fun r => r.weight)).Pairwise (fun a b => b ≤ a) :=
  topic_terms_descending [⟨1, "b", (2 : ℚ)⟩, ⟨1, "a", (3 : ℚ)⟩]
    ((1 : Nat), "a, b") (by decide)

/-! ## The article-selection loop and the regex capture -/

/-- A sample stream for exercising the selection loop: the first draw is
`PMC1043862.txt`, every later draw is `PMC1054881.txt`. -/
def retrySamples : Nat → String :=
  fun i => if i = 0 then "PMC1043862.txt" else "PMC1054881.txt"

/-- File contents for exercising the selection loop: only `PMC1054881.txt`
contains the substring `Background `. -/
def retryContents : String → String :=
  fun a => if a = "PMC1054881.txt" then "xx Background yes" else "nothing"

/-- Counterexample to claim C5 as stated: the article-selection step does
repeatedly re-attempt on failure.  In this concrete run the first sampled
article has no `Background ` match, and the `while result is None` loop draws
a second article: two sampling attempts are made, not one. -/
theorem article_selection_does_retry :
    selectArticle retrySamples retryContents 5 0 =
      some (2, "PMC1054881.txt", "yes") ∧
    searchBackground (flattenText (retryContents (retrySamples 0))) = none := by
  decide

/-- Claim C5 (amended): apart from the timeout-guarded Comprehend polling
loop, the only other repeated-attempt construct is the article-selection
`while result is None` loop itself: it re-attempts exactly when the sampled
article's flattened text has no `Background (.{,1000})` match, and it stops at
the first sampled article that matches. -/
theorem article_selection_retry_iff_no_match (samples : Nat → String)
    (contents : String → String) :
    ∀ fuel i n art cap,
      selectArticle samples contents fuel i = some (n, art, cap) →
        i < n ∧ art = samples (n - 1) ∧
        searchBackground (flattenText (contents art)) = some cap ∧
        ∀ j, i ≤ j → j < n - 1 →
          searchBackground (flattenText (contents (samples j))) = none := by
  intro fuel
  induction fuel with
  | zero => intro i n art cap h; exact absurd h (by simp [selectArticle])
  | succ fuel ih =>
      intro i n art cap h
      simp only [selectArticle] at h
      rcases hs : searchBackground (flattenText (contents (samples i))) with _ | cap'
      · rw [hs] at h
        obtain ⟨hin, hart, hcap, hrest⟩ := ih (i + 1) n art cap h
        refine ⟨by omega, hart, hcap, ?_⟩
        intro j hij hjn
        rcases Nat.eq_or_lt_of_le hij with rfl | hij'
        · exact hs
        · exact hrest j hij' hjn
      · rw [hs] at h
        simp only [Option.some_inj, Prod.mk.injEq] at h
        obtain ⟨rfl, rfl, rfl⟩ := h
        refine ⟨by omega, by simp, by rw [hs], ?_⟩
        intro j hij hjn
        exact absurd hjn (by omega)

/-- Closed instance of the amended C5: applying the characterisation to the
concrete retrying run. -/
theorem article_selection_retry_iff_no_match_witness :
    (0 : Nat) < 2 ∧
    searchBackground (flattenText (retryContents "PMC1054881.txt")) = some "yes" :=
  ⟨(article_selection_retry_iff_no_match retrySamples retryContents 5 0 2
      "PMC1054881.txt" "yes" (by decide)).1,
   (article_selection_retry_iff_no_match retrySamples retryContents 5 0 2
      "PMC1054881.txt" "yes" (by decide)).2.2.1⟩

/-- Claim C8: whenever the regex search of the summarization cell captures a
group from the whitespace-flattened article text, the captured `inputs` string
is at most 1000 characters long and contains no newline and no tab. -/
theorem summarize_input_bounded (raw cap : String)
    (h : searchBackground (flattenText raw) = some cap) :
    cap.length ≤ 1000 ∧ ∀ c ∈ cap.data, c ≠ '\n' ∧ c ≠ '\t' := by
  unfold searchBackground at h
  rcases hf : findFirstMatch bgPattern (flattenText raw).data with _ | i
  · rw [hf] at h; simp at h
  · rw [hf] at h
    simp only [Option.map_some', Option.some_inj] at h
    subst h
    constructor
    · exact List.length_take_le 1000 _
    · intro c hc
      have hc1 : c ∈ ((flattenText raw).data.drop (i + bgPattern.length)).takeWhile
          (fun c => c != '\n') := List.mem_of_mem_take hc
      have hc2 : c ∈ (flattenText raw).data.drop (i + bgPattern.length) :=
        (List.takeWhile_sublist _).mem hc1
      have hc3 : c ∈ (flattenText raw).data := List.mem_of_mem_drop hc2
      unfold flattenText at hc3
      obtain ⟨c0, _, hc0⟩ := List.mem_map.mp hc3
      subst hc0
      by_cases h1 : c0 = '\n'
      · simp [h1]
      · by_cases h2 : c0 = '\t'
        · simp [h1, h2]
        · simp [h1, h2]

/-- Closed instance of C8: a concrete article text with a newline and a tab;
the captured group is short and clean. -/
theorem summarize_input_bounded_witness :
    ("hi b".length ≤ 1000 ∧ ∀ c ∈ "hi b".data, c ≠ '\n' ∧ c ≠ '\t') :=
  summarize_input_bounded "A\nBackground hi\tb" "hi b" (by decide)

/-- Claim C9: the article-selection loop exits only on an article whose
flattened text matches the `Background ` regex; if no article in
`article_names` matches, the loop never terminates (no iteration budget makes
it return); and if every article matches, it terminates at the very first
sampling attempt. -/
theorem article_selection_termination (samples : Nat → String)
    (contents : String → String) (hs : ∀ i, samples i ∈ article_names) :
    (∀ fuel i n art cap,
      selectArticle samples contents fuel i = some (n, art, cap) →
        art ∈ article_names ∧
        (searchBackground (flattenText (contents art))).isSome = true) ∧
    ((∀ a ∈ article_names, searchBackground (flattenText (contents a)) = none) →
      ∀ fuel i, selectArticle samples contents fuel i = none) ∧
    ((∀ a ∈ article_names,
        (searchBackground (flattenText (contents a))).isSome = true) →
      ∀ fuel i, 1 ≤ fuel →
        (selectArticle samples contents fuel i).isSome = true) := by
  refine ⟨?_, ?_, ?_⟩
  · intro fuel
    induction fuel with
    | zero => intro i n art cap h; exact absurd h (by simp [selectArticle])
    | succ fuel ih =>
        intro i n art cap h
        simp only [selectArticle] at h
        rcases hsr : searchBackground (flattenText (contents (samples i))) with _ | cap'
        · rw [hsr] at h
          exact ih (i + 1) n art cap h
        · rw [hsr] at h
          simp only [Option.some_inj] at h
          have hart : art = samples i := by
            have := congrArg (fun x => x.2.1) h; simpa using this.symm
          subst hart
          exact ⟨hs i, by rw [hsr]; rfl⟩
  · intro hnone fuel
    induction fuel with
    | zero => intro i; rfl
    | succ fuel ih =>
        intro i
        simp only [selectArticle]
        rw [hnone (samples i) (hs i)]
        exact ih (i + 1)
  · intro hall fuel i hfuel
    match fuel, hfuel with
    | fuel + 1, _ =>
        simp only [selectArticle]
        rcases hsr : searchBackground (flattenText (contents (samples i))) with _ | cap'
        · have := hall (samples i) (hs i)
          rw [hsr] at this
          simp at this
        · rfl

/-- Closed instance of C9: when no article text matches, a budget of 7
iterations still leaves the loop running. -/
theorem article_selection_termination_witness :
    selectArticle (fun _ => "PMC1043862.txt") (fun _ => "") 7 0 = none :=
  (article_selection_termination (fun _ => "PMC1043862.txt") (fun _ => "")
      (fun _ => show "PMC1043862.txt" ∈ article_names by decide)).2.1
    (fun _ _ => show searchBackground (flattenText "") = none by decide) 7 0

/-! ## Lemmas about the waiter and clean-up -/

theorem waiterPollAux_bound (available : Nat → Option String) :
    ∀ r i, (waiterPollAux available r i).2 ≤ i + r := by
  intro r
  induction r with
  | zero => intro i; simp [waiterPollAux]
  | succ r ih =>
      intro i
      simp only [waiterPollAux]
      rcases available i with _ | v
      · have := ih (i + 1); dsimp only; omega
      · dsimp only; omega

/-- Claim C6: the async HuggingFace prediction is waited on by a blocking
bounded poll: the `WaiterConfig` passed to `get_result` allows at most 24
attempts at a fixed 15-second delay, so no run of the waiter makes more than
24 polls and the total sleeping time is at most `24 * 15` seconds. -/
theorem async_wait_bounded (available : Nat → Option String) :
    waiter.max_attempts = 24 ∧ waiter.delay = 15 ∧
    (get_result waiter available).2 ≤ waiter.max_attempts ∧
    waiter.delay * (get_result waiter available).2 ≤ 360 := by
  have hb := waiterPollAux_bound available 24 0
  refine ⟨rfl, rfl, ?_, ?_⟩
  · show (waiterPollAux available 24 0).2 ≤ 24
    omega
  · show 15 * (waiterPollAux available 24 0).2 ≤ 360
    omega

/-- Claim C7: the clean-up cell deletes the inference endpoint and exactly the
S3 objects whose keys start with `sci-docs`; any key without that prefix keeps
its exact multiplicity in the bucket. -/
theorem cleanup_deletes_prefixed_keys_only (st : CleanupState) :
    (cleanUp st).endpointDeployed = false ∧
    (∀ k, keyHasPrefix "sci-docs" k = true → k ∉ (cleanUp st).bucketKeys) ∧
    (∀ k, keyHasPrefix "sci-docs" k = false →
      (cleanUp st).bucketKeys.count k = st.bucketKeys.count k) := by
  refine ⟨rfl, ?_, ?_⟩
  · intro k hk hmem
    have := (List.mem_filter.mp hmem).2
    rw [hk] at this
    simp at this
  · intro k hk
    exact List.count_filter (by simp [hk])

/-- Closed instance of C7: one prefixed key is gone, one other key keeps its
count, after cleaning a concrete bucket. -/
theorem cleanup_deletes_prefixed_keys_only_witness :
    "sci-docs/data/raw/PMC1.txt" ∉
      (cleanUp ⟨true, ["sci-docs/data/raw/PMC1.txt", "keep/me.txt"]⟩).bucketKeys ∧
    (cleanUp ⟨true, ["sci-docs/data/raw/PMC1.txt", "keep/me.txt"]⟩).bucketKeys.count
        "keep/me.txt" =
      (["sci-docs/data/raw/PMC1.txt", "keep/me.txt"] : List String).count "keep/me.txt" :=
  ⟨(cleanup_deletes_prefixed_keys_only ⟨true, ["sci-docs/data/raw/PMC1.txt", "keep/me.txt"]⟩).2.1
      "sci-docs/data/raw/PMC1.txt" (by decide),
   (cleanup_deletes_prefixed_keys_only ⟨true, ["sci-docs/data/raw/PMC1.txt", "keep/me.txt"]⟩).2.2
      "keep/me.txt" (by decide)⟩

end SciDocs
